import Mathlib

/-!
Verification development for the IntelliSchedule core: a shallow embedding of
the Availability Engine (`CalendarService.find_free_slots`), the Temporal
Expression Resolver (`DateTimeParser` in `backend/utils.py`) and the
Conversation Orchestrator (`CalendarAgent` in `backend/agent.py`), together
with theorems settling the frozen specification claims.

Modelling conventions:
* Time instants are modelled as a calendar day number (`Int`) plus a
  microsecond-of-day offset (`Nat`), all expressed in one fixed-offset
  timezone; `pytz` DST subtleties are outside the model.
* Python `datetime` strings sorted as ISO strings sort chronologically, so
  the engine model sorts intervals by their numeric start; Python `list.sort`
  is stable and the model uses the (stable) `List.insertionSort`.
* The field `stop` everywhere models the Python attribute/key `end`
  (a reserved word in Lean).
-/

namespace IntelliSchedule

/-- A half-open time interval `[start, stop)`; models the `{start, end}`
dictionaries used for busy periods and produced slots, with instants
abstracted to integers (e.g. minutes or microseconds since an epoch). -/
structure Iv where
  start : Int
  stop : Int
  deriving DecidableEq, Repr

/-- The half-open overlap test used by `CalendarService.check_availability`:
`start_utc < busy_end and end_utc > busy_start`. -/
def overlaps (a b : Iv) : Prop := a.start < b.stop ∧ a.stop > b.start

instance (a b : Iv) : Decidable (overlaps a b) := by
  unfold overlaps; infer_instance

/-- One gap of the slot-carving loop of `CalendarService.find_free_slots`:
`while current_slot + duration <= free_period_end: append slot; advance`.
The Python loop terminates only for a positive duration; the fuel argument
makes the recursion structural, and `carve` below supplies enough fuel for
every positive duration. -/
def carveAux (dur : Int) : Nat → Int → Int → List Iv
  | 0, _, _ => []
  | fuel + 1, cur, gapEnd =>
    if cur + dur ≤ gapEnd then ⟨cur, cur + dur⟩ :: carveAux dur fuel (cur + dur) gapEnd
    else []

/-- Slots of exact length `dur` carved back-to-back from `cur` while they fit
before `gapEnd` (the loop body of `find_free_slots`). -/
def carve (cur gapEnd dur : Int) : List Iv :=
  carveAux dur ((gapEnd - cur).toNat + 1) cur gapEnd

/-- The `for i in range(len(all_busy_periods) - 1)` loop of
`find_free_slots`: each adjacent pair of the sorted timeline contributes the
slots carved from the gap `(previous.end, next.start)`. -/
def freeSlotsOfSorted (dur : Int) : List Iv → List Iv
  | p :: q :: rest => carve p.stop q.start dur ++ freeSlotsOfSorted dur (q :: rest)
  | _ => []

/-- Sorting key of `all_busy_periods.sort(key=lambda x: x['start'])`. -/
def startLe (a b : Iv) : Prop := a.start ≤ b.start

instance : DecidableRel startLe := fun a b => Int.decLe a.start b.start

instance : IsTotal Iv startLe := ⟨fun a b => Int.le_total a.start b.start⟩

instance : IsTrans Iv startLe := ⟨fun _ _ _ h1 h2 => le_trans h1 h2⟩

/-- `CalendarService.find_free_slots`: prepend a zero-length sentinel at the
window start, append one at the window end, sort (stably) by start, and carve
slots from every gap between adjacent timeline entries. -/
def find_free_slots (busy : List Iv) (ws we dur : Int) : List Iv :=
  freeSlotsOfSorted dur
    (List.insertionSort startLe (⟨ws, ws⟩ :: busy ++ [⟨we, we⟩]))

/-- Comparison of interval ends (used to state that the sorted timeline has
nondecreasing ends). -/
def stopLe (a b : Iv) : Prop := a.stop ≤ b.stop

/-- Strong disjointness of two half-open intervals: one ends at or before the
other starts. -/
def strongDisjoint (a b : Iv) : Prop := a.stop ≤ b.start ∨ b.stop ≤ a.start

instance (a b : Iv) : Decidable (strongDisjoint a b) := by
  unfold strongDisjoint; infer_instance

/-- `r` ends no later than the first interval of the list (trivial for the
empty list); the invariant threaded through the slot/busy disjointness
argument. -/
def headStopLe (r : Iv) : List Iv → Prop
  | [] => True
  | p :: _ => r.stop ≤ p.stop

/-! ## Text scanning primitives

The resolver in `backend/utils.py` works with Python regular expressions and
substring tests on lowercased text.  The model implements substring search
directly and interprets the concrete regular expressions of the source with a
small backtracking matcher (`Pat`/`mrun`) whose result order reproduces the
leftmost, greedy-first preference of `re.search`. -/

/-- `isLeadOf pat s` holds when `pat` is an initial segment of `s`. -/
def isLeadOf : List Char → List Char → Bool
  | [], _ => true
  | _ :: _, [] => false
  | a :: as, b :: bs => a == b && isLeadOf as bs

/-- Substring containment on character lists (the Python `pat in text` test). -/
def subIn (pat : List Char) : List Char → Bool
  | [] => isLeadOf pat []
  | c :: rest => isLeadOf pat (c :: rest) || subIn pat rest

/-- Python `pat in text` on strings. -/
def strContains (text pat : String) : Bool := subIn pat.data text.data

/-- Python `\d`. -/
def isDigitCh (c : Char) : Bool := c.isDigit

/-- Python `\s` (ASCII whitespace). -/
def isSpaceCh (c : Char) : Bool :=
  c == ' ' || c == '\t' || c == '\n' || c == '\r' || c == '\x0b' || c == '\x0c'

/-- Python `\w` (ASCII word characters). -/
def isWordCh (c : Char) : Bool := c.isAlphanum || c == '_'

/-- `str.lower()` (ASCII), computable by the kernel (the built-in
`String.toLower` recurses on byte positions and does not reduce). -/
def strLower (s : String) : String := ⟨s.data.map Char.toLower⟩

/-- `str.strip()`: drop whitespace from both ends. -/
def strTrim (s : String) : String :=
  ⟨((s.data.dropWhile isSpaceCh).reverse.dropWhile isSpaceCh).reverse⟩

/-- Length of the maximal run of characters satisfying `f` at the front. -/
def runLen (f : Char → Bool) : List Char → Nat
  | [] => 0
  | c :: rest => if f c then runLen f rest + 1 else 0

/-- `descRange hi lo = [hi, hi-1, ..., lo]` (empty when `hi < lo`): the
greedy-first order in which a bounded repetition offers its match lengths. -/
def descRange (hi lo : Nat) : List Nat :=
  (List.range (hi + 1 - lo)).map (fun j => hi - j)

/-- The regular-expression fragments needed by the source patterns: literals,
bounded/unbounded digit runs, whitespace runs, option, alternation, sequence,
capture groups and word boundaries. -/
inductive Pat where
  | lit (s : List Char)
  | digits (mn mx : Nat)
  | digits1
  | ws0
  | ws1
  | opt (p : Pat)
  | alt (p q : Pat)
  | seq (p q : Pat)
  | grp (n : Nat) (p : Pat)
  | bnd
  deriving Repr

/-- Captured groups of one match: group index paired with the captured text. -/
abbrev Caps := List (Nat × List Char)

/-- Is the character at position `i` of `full` a word character? -/
def wordAt (full : List Char) (i : Nat) : Bool :=
  match (full.drop i).head? with
  | some c => isWordCh c
  | none => false

/-- Is the character just before position `i` a word character? -/
def wordBefore (full : List Char) (i : Nat) : Bool :=
  match i with
  | 0 => false
  | j + 1 => wordAt full j

/-- All ways a pattern can match at position `i` of `full`, each giving the
end position and the captured groups, in the backtracking order of the Python
`re` engine (greedy repetitions longest first, left alternative first). -/
def mrun (full : List Char) : Pat → Nat → List (Nat × Caps)
  | .lit s, i => if isLeadOf s (full.drop i) then [(i + s.length, [])] else []
  | .digits mn mx, i =>
    let r := min (runLen isDigitCh (full.drop i)) mx
    (descRange r mn).map (fun k => (i + k, []))
  | .digits1, i =>
    let r := runLen isDigitCh (full.drop i)
    (descRange r 1).map (fun k => (i + k, []))
  | .ws0, i => (descRange (runLen isSpaceCh (full.drop i)) 0).map (fun k => (i + k, []))
  | .ws1, i => (descRange (runLen isSpaceCh (full.drop i)) 1).map (fun k => (i + k, []))
  | .opt p, i => mrun full p i ++ [(i, [])]
  | .alt p q, i => mrun full p i ++ mrun full q i
  | .seq p q, i =>
    (mrun full p i).flatMap
      (fun pr => (mrun full q pr.1).map (fun qr => (qr.1, pr.2 ++ qr.2)))
  | .grp n p, i =>
    (mrun full p i).map (fun pr => (pr.1, (n, (full.drop i).take (pr.1 - i)) :: pr.2))
  | .bnd, i => if wordAt full i != wordBefore full i then [(i, [])] else []

/-- `re.search`: the first (leftmost) position with a match wins, and there
the backtracking-first result is kept; returns its captured groups. -/
def patSearch (p : Pat) (full : List Char) : Option Caps :=
  (List.range (full.length + 1)).findSome?
    (fun i => ((mrun full p i).head?).map (fun r => r.2))

/-- `match.group n` (`none` models Python `None` for an unentered group). -/
def groupGet (caps : Caps) (n : Nat) : Option (List Char) :=
  (List.find? (fun c => c.1 == n) caps).map (fun c => c.2)

/-- Literal pattern from a string. -/
def lp (s : String) : Pat := .lit s.data

/-- Sequence of patterns (right fold; the empty literal is the unit). -/
def pseq (ps : List Pat) : Pat := ps.foldr .seq (.lit [])

/-- `int(...)` on a captured all-digit string. -/
def charsToNat (t : List Char) : Nat :=
  t.foldl (fun a c => a * 10 + (c.toNat - 48)) 0

/-! ## Model of time instants

`DT` models an aware-or-naive Python `datetime` in one fixed-offset zone:
a calendar day number plus a microsecond-of-day, with an awareness flag.
Day 0 of the model is a Monday, matching `datetime.weekday()`. -/

/-- Microseconds in a day. -/
def usPerDay : Nat := 86400000000

/-- A model `datetime`: day number, microsecond of day, timezone awareness. -/
structure DT where
  day : Int
  us : Nat
  aware : Bool
  deriving DecidableEq, Repr

/-- `dt.replace(hour=h, minute=m, second=s, microsecond=usp)`. -/
def replaceTime (d : DT) (h m s usp : Nat) : DT :=
  { d with us := ((h * 60 + m) * 60 + s) * 1000000 + usp }

/-- `dt + timedelta(days=n)`. -/
def addDays (d : DT) (n : Int) : DT := { d with day := d.day + n }

/-- `dt + timedelta(minutes=n)` (can roll over to later days). -/
def addMinutes (d : DT) (n : Nat) : DT :=
  let tot := d.us + n * 60000000
  { d with day := d.day + (tot / usPerDay : Nat), us := tot % usPerDay }

/-- Microseconds since the model epoch, the order on instants. -/
def toMicros (d : DT) : Int := d.day * (usPerDay : Int) + (d.us : Int)

/-- `a <= b` on datetimes. -/
def dtLe (a b : DT) : Prop := toMicros a ≤ toMicros b

/-- `a < b` on datetimes. -/
def dtLt (a b : DT) : Prop := toMicros a < toMicros b

instance (a b : DT) : Decidable (dtLe a b) := by unfold dtLe; infer_instance

instance (a b : DT) : Decidable (dtLt a b) := by unfold dtLt; infer_instance

/-- `datetime.weekday()`: 0 = Monday, ..., 6 = Sunday. -/
def weekdayOf (d : DT) : Int := d.day % 7

/-- `pytz` localization: attach the user timezone. -/
def localize (d : DT) : DT := { d with aware := true }

/-- `if dt.tzinfo is None: dt = user_tz.localize(dt)`. -/
def ensureAware (d : DT) : DT := if d.aware then d else localize d

/-- `dt.hour`. -/
def hourOf (d : DT) : Nat := d.us / 3600000000

/-- `dt.minute`. -/
def minuteOf (d : DT) : Nat := d.us % 3600000000 / 60000000

/-! ## Temporal Expression Resolver (`DateTimeParser`) -/

/-- Oracle for `dateutil.parser.parse(text, fuzzy=True, default=d)`:
an external library, modelled as an arbitrary function; `none` models the
`ValueError` raised when no date is found, and a returned `DT` may be naive
(the callers localize it). -/
def DuOracle := String → DT → Option DT

/-- The result dictionary of `DateTimeParser.parse` (the `text` key of the
source dictionaries carries no information and is omitted). -/
structure Spec where
  start : DT
  stop : DT
  is_range : Bool
  is_full_day : Bool
  duration_minutes : Option Nat
  deriving DecidableEq, Repr

/-- `DateTimeParser.relative_patterns`, in dictionary insertion order. -/
def relativePatterns : List (String × Int) :=
  [("today", 0), ("tomorrow", 1), ("day after tomorrow", 2), ("next week", 7),
   ("this week", 0), ("next month", 30), ("this month", 0)]

/-- `DateTimeParser.weekday_patterns`, in dictionary insertion order. -/
def weekdayPatterns : List (String × Nat) :=
  [("monday", 0), ("mon", 0), ("tuesday", 1), ("tue", 1), ("tues", 1),
   ("wednesday", 2), ("wed", 2), ("thursday", 3), ("thu", 3), ("thur", 3),
   ("thurs", 3), ("friday", 4), ("fri", 4), ("saturday", 5), ("sat", 5),
   ("sunday", 6), ("sun", 6)]

/-- `DateTimeParser.time_patterns`, in dictionary insertion order:
period name with start and end hour. -/
def timePatterns : List (String × Nat × Nat) :=
  [("morning", 5, 12), ("afternoon", 12, 18), ("evening", 18, 21),
   ("night", 21, 24), ("midnight", 0, 0), ("midday", 12, 12), ("noon", 12, 12),
   ("dawn", 5, 6), ("dusk", 18, 19), ("twilight", 19, 20)]

/-- The period names treated as exact instants by `_parse_single_datetime`. -/
def exactNames : List String := ["midnight", "midday", "noon"]

/-- The availability-cue words of the full-day branch. -/
def availCueWords : List String :=
  ["availability", "available", "free", "openings", "slots"]

/-- First relative pattern whose phrase occurs in the text. -/
def findRelative (text : String) : Option (String × Int) :=
  relativePatterns.find? (fun p => strContains text p.1)

/-- First weekday pattern whose name occurs in the text. -/
def findWeekday (text : String) : Option (String × Nat) :=
  weekdayPatterns.find? (fun p => strContains text p.1)

/-- First time period whose name occurs in the text. -/
def findPeriod (text : String) : Option (String × Nat × Nat) :=
  timePatterns.find? (fun p => strContains text p.1)

/-- `DateTimeParser._parse_date_part` with `now = c` (the source reads the
wall clock `datetime.now(user_tz)` here).  The final fuzzy `dateutil` attempt
defaults to `now` itself when it fails; the source therefore never actually
returns `None` from this function. -/
def parseDatePart (du : DuOracle) (text : String) (c : DT) : DT :=
  match findRelative text with
  | some p => replaceTime (addDays c p.2) 0 0 0 0
  | none =>
    match findWeekday text with
    | some w =>
      let da : Int := (w.2 : Int) - weekdayOf c
      let da := if da ≤ 0 then da + 7 else da
      let da := if strContains text "next" then da + 7 else da
      replaceTime (addDays c da) 0 0 0 0
    | none =>
      match du text c with
      | some d => ensureAware d
      | none => c

/-- `DateTimeParser._get_date_range_from_text`. -/
def getDateRange (du : DuOracle) (text : String) (c : DT) : DT × DT :=
  if strContains text "this week" then
    (addDays c (-(weekdayOf c)), addDays c (6 - weekdayOf c))
  else if strContains text "next week" then
    (addDays c (7 - weekdayOf c), addDays c (13 - weekdayOf c))
  else
    let d := parseDatePart du text c
    (d, d)

/-- `DateTimeParser._parse_time_string`: hour/minute from the captured time
string, adjusted by the AM/PM marker.  The captures are always digit strings
of the shapes `\d{1,2}` or `\d{1,2}:\d{2}`, on which the source never raises. -/
def parseTimeString (t : List Char) (per : Option (List Char)) : Option (Nat × Nat) :=
  let hm : Nat × Nat :=
    if t.contains ':' then
      (charsToNat (t.takeWhile (fun c => c != ':')),
       charsToNat ((t.dropWhile (fun c => c != ':')).tail))
    else (charsToNat t, 0)
  let h :=
    if per == some ("pm".data) && hm.1 != 12 then hm.1 + 12
    else if per == some ("am".data) && hm.1 == 12 then 0 else hm.1
  some (h, hm.2)

/-- Captured groups of one time-range pattern: start time string, optional
start AM/PM marker, end time string, optional end marker. -/
structure RawGroups where
  sStr : List Char
  sPer : Option (List Char)
  eStr : List Char
  ePer : Option (List Char)
  deriving DecidableEq, Repr

/-- Group `(\d{1,2}(?::\d{2})?)` with capture index `n`. -/
def timeGrpPat (n : Nat) : Pat :=
  .grp n (.seq (.digits 1 2) (.opt (.seq (lp ":") (.digits 2 2))))

/-- Group `(am|pm)` with capture index `n`. -/
def ampmGrp (n : Nat) : Pat := .grp n (.alt (lp "am") (lp "pm"))

/-- `between\s+(\d{1,2}(?::\d{2})?)\s*(am|pm)?\s*and\s*(\d{1,2}(?::\d{2})?)\s*(am|pm)?`. -/
def rangePat1 : Pat :=
  pseq [lp "between", .ws1, timeGrpPat 1, .ws0, .opt (ampmGrp 2), .ws0,
        lp "and", .ws0, timeGrpPat 3, .ws0, .opt (ampmGrp 4)]

/-- `from\s+(\d{1,2}(?::\d{2})?)\s*(am|pm)?\s*to\s*(\d{1,2}(?::\d{2})?)\s*(am|pm)?`. -/
def rangePat2 : Pat :=
  pseq [lp "from", .ws1, timeGrpPat 1, .ws0, .opt (ampmGrp 2), .ws0,
        lp "to", .ws0, timeGrpPat 3, .ws0, .opt (ampmGrp 4)]

/-- `(\d{1,2}(?::\d{2})?)\s*[-]\s*(\d{1,2}(?::\d{2})?)\s*(am|pm)` (the source
character class also lists the bytes of a mis-decoded en dash; ASCII inputs
only ever use the hyphen). -/
def rangePat3 : Pat :=
  pseq [timeGrpPat 1, .ws0, lp "-", .ws0, timeGrpPat 2, .ws0, ampmGrp 3]

/-- The first range pattern that matches, with its groups arranged as in
`_parse_time_range` (for the 3-group dash pattern the start marker is absent
and the single marker is the end marker). -/
def findRange (text : String) : Option RawGroups :=
  let t := text.data
  match patSearch rangePat1 t with
  | some caps =>
    some ⟨(groupGet caps 1).getD [], groupGet caps 2,
          (groupGet caps 3).getD [], groupGet caps 4⟩
  | none =>
    match patSearch rangePat2 t with
    | some caps =>
      some ⟨(groupGet caps 1).getD [], groupGet caps 2,
            (groupGet caps 3).getD [], groupGet caps 4⟩
    | none =>
      match patSearch rangePat3 t with
      | some caps =>
        some ⟨(groupGet caps 1).getD [], none,
              (groupGet caps 2).getD [], groupGet caps 3⟩
      | none => none

/-- Outcome of `_parse_time_range` as seen by `parse`: a result, no match, or
an exception (a `datetime.replace` with an out-of-range hour or minute),
which the `try` in `parse` turns into an overall `None`. -/
inductive ROut where
  | raised
  | nomatch
  | found (s : Spec)
  deriving DecidableEq, Repr

/-- The body of `_parse_time_range` after a pattern matched: infer a missing
start marker from the end marker, parse both bounds, resolve the date range,
and build the (always `is_range=True`) result; `replace` validation models
the `ValueError` on hours above 23 or minutes above 59. -/
def processGroups (du : DuOracle) (text : String) (c : DT) (g : RawGroups) : ROut :=
  let sPer := if g.sPer.isNone && g.ePer.isSome then g.ePer else g.sPer
  match parseTimeString g.sStr sPer, parseTimeString g.eStr g.ePer with
  | some st, some et =>
    let dr := getDateRange du text c
    if st.1 ≤ 23 && st.2 ≤ 59 && et.1 ≤ 23 && et.2 ≤ 59 then
      .found { start := ensureAware (replaceTime dr.1 st.1 st.2 0 0),
               stop := ensureAware (replaceTime dr.2 et.1 et.2 0 0),
               is_range := true, is_full_day := false, duration_minutes := none }
    else .raised
  | _, _ => .nomatch

/-- `DateTimeParser._parse_time_range`.  (The source would try later patterns
if `_parse_time_string` returned `None`, but on the digit-shaped captures it
never does, so taking the first matching pattern is exact.) -/
def parseTimeRange (du : DuOracle) (text : String) (c : DT) : ROut :=
  match findRange text with
  | some g => processGroups du text c g
  | none => .nomatch

/-- `\d{1,2}:\d{2}|\d{1,2}\s*(am|pm)`, the specific-time test. -/
def timeRegex : Pat :=
  .alt (pseq [.digits 1 2, lp ":", .digits 2 2])
       (pseq [.digits 1 2, .ws0, .alt (lp "am") (lp "pm")])

/-- `DateTimeParser._parse_single_datetime`.  A raised exception inside the
source function and a `None` return both make `parse` return `None`, so the
model collapses the two into `none` (in particular the `night` period, whose
end hour 24 makes `datetime.replace` raise). -/
def parseSingleDatetime (du : DuOracle) (text : String) (c : DT) (dur : Nat) : Option Spec :=
  let hasTime := (patSearch timeRegex text.data).isSome
  let hasPeriod := timePatterns.any (fun p => strContains text p.1)
  let dp := parseDatePart du text c
  if !hasTime && !hasPeriod && availCueWords.any (fun w => strContains text w) then
    some { start := replaceTime dp 0 0 0 0, stop := replaceTime dp 23 59 59 999999,
           is_range := true, is_full_day := true, duration_minutes := none }
  else if hasPeriod then
    match findPeriod text with
    | some p =>
      if exactNames.contains p.1 then
        let st := replaceTime dp p.2.1 0 0 0
        some { start := st, stop := addMinutes st dur, is_range := false,
               is_full_day := false, duration_minutes := some dur }
      else if p.2.1 ≤ 23 && p.2.2 ≤ 23 then
        some { start := replaceTime dp p.2.1 0 0 0,
               stop := replaceTime dp p.2.2 0 0 0, is_range := true,
               is_full_day := false, duration_minutes := none }
      else none
    | none => none
  else
    match du text dp with
    | some pdt0 =>
      let pdt := ensureAware pdt0
      some { start := pdt, stop := addMinutes pdt dur, is_range := false,
             is_full_day := false, duration_minutes := some dur }
    | none => none

/-- `\b(a|an|one)\s+hour\b`. -/
def durWordPat : Pat :=
  pseq [.bnd, .grp 1 (.alt (lp "a") (.alt (lp "an") (lp "one"))), .ws1,
        lp "hour", .bnd]

/-- `(\d+)\s*-?\s*h\b`. -/
def durHr1 : Pat := pseq [.grp 1 .digits1, .ws0, .opt (lp "-"), .ws0, lp "h", .bnd]

/-- `(\d+)\s*-?\s*hr`. -/
def durHr2 : Pat := pseq [.grp 1 .digits1, .ws0, .opt (lp "-"), .ws0, lp "hr"]

/-- `(\d+)\s*-?\s*hours?`. -/
def durHr3 : Pat :=
  pseq [.grp 1 .digits1, .ws0, .opt (lp "-"), .ws0, lp "hour", .opt (lp "s")]

/-- `(\d+)\s*-?\s*m\b`. -/
def durMin1 : Pat := pseq [.grp 1 .digits1, .ws0, .opt (lp "-"), .ws0, lp "m", .bnd]

/-- `(\d+)\s*-?\s*min(ute)?s?`. -/
def durMin2 : Pat :=
  pseq [.grp 1 .digits1, .ws0, .opt (lp "-"), .ws0, lp "min",
        .opt (.grp 2 (lp "ute")), .opt (lp "s")]

/-- Search a pattern and read its first capture group as a number. -/
def pickGroup1 (p : Pat) (t : List Char) : Option Nat :=
  (patSearch p t).bind (fun caps => (groupGet caps 1).map charsToNat)

/-- `extract_duration` of `backend/utils.py` (all its searches use
`re.IGNORECASE`, modelled by lowering the text first). -/
def extract_duration (text : String) : Option Nat :=
  let t := (strLower text).data
  if (patSearch durWordPat t).isSome then some 60
  else
    match pickGroup1 durHr1 t with
    | some n => some (n * 60)
    | none =>
      match pickGroup1 durHr2 t with
      | some n => some (n * 60)
      | none =>
        match pickGroup1 durHr3 t with
        | some n => some (n * 60)
        | none =>
          match pickGroup1 durMin1 t with
          | some n => some n
          | none =>
            match pickGroup1 durMin2 t with
            | some n => some n
            | none => none

/-- `extract_duration(text) or 30` (Python `or`: a zero duration is falsy). -/
def durOr30 (text : String) : Nat :=
  match extract_duration text with
  | some d => if d == 0 then 30 else d
  | none => 30

/-- `DateTimeParser.parse(text, user_timezone)`: lowercase and strip, try the
range parser, then the single-datetime parser; `c` is the wall-clock reading
`datetime.now(user_tz)` consulted inside (the function has no `now`
parameter). -/
def parse (du : DuOracle) (rawText : String) (c : DT) : Option Spec :=
  let text := strTrim (strLower rawText)
  let dur := durOr30 text
  match parseTimeRange du text c with
  | .raised => none
  | .found r => some r
  | .nomatch => parseSingleDatetime du text c dur

/-! ## Conversation Orchestrator (`CalendarAgent`)

External collaborators (the Gemini generation capability, `dateutil`, the
Google Calendar service and `strftime` formatting) are modelled as oracle
functions bundled in `Oracles`; `Except.error` models a raised exception in
the collaborator call.  Response template texts follow the source with
apostrophes dropped. -/

/-- `text.*otherText` regex test (used by the rule-based intent fallback):
some occurrence of `a` is followed, anywhere later, by an occurrence of `b`. -/
def seqIn (a b : List Char) : List Char → Bool
  | [] => isLeadOf a [] && subIn b []
  | c :: rest =>
    (isLeadOf a (c :: rest) && subIn b ((c :: rest).drop a.length)) || seqIn a b rest

/-- `re.search("a.*b", m)` as a Boolean. -/
def containsSeq (m a b : String) : Bool := seqIn a.data b.data m.data

/-- Any of the words occurs in the message (a literal-alternation regex). -/
def containsAny (m : String) (ws : List String) : Bool :=
  ws.any (fun w => strContains m w)

/-- `booking_patterns` of the rule-based fallback in `_parse_intent`:
any of the four alternation regexes matches. -/
def bookingMatch (m : String) : Bool :=
  containsAny m ["book", "schedule", "set up", "arrange", "plan", "create", "add"] ||
  containsAny m ["meeting", "appointment", "call", "event"] ||
  containsAny m ["available", "free", "open"] ||
  containsAny m ["tomorrow", "today", "next week", "this week", "monday",
                 "tuesday", "wednesday", "thursday", "friday", "saturday", "sunday"]

/-- `availability_patterns` of the rule-based fallback. -/
def availabilityMatch (m : String) : Bool :=
  containsAny m ["available", "free", "open"] ||
  (containsSeq m "what" "time" || containsSeq m "when" "free" ||
    containsSeq m "any" "slot") ||
  (containsSeq m "check" "calendar" || containsSeq m "see" "schedule")

/-- `modification_patterns` of the rule-based fallback. -/
def modificationMatch (m : String) : Bool :=
  containsAny m ["cancel", "delete", "remove", "reschedule", "move", "change", "update"]

/-- The deterministic rule-based fallback classifier of
`CalendarAgent._parse_intent` (the message argument is the already-lowercased
message text). -/
def ruleIntent (m : String) : String :=
  if bookingMatch m then
    if strContains m "available" || strContains m "free" then "check_availability"
    else "book_appointment"
  else if availabilityMatch m then "check_availability"
  else if modificationMatch m then "modify_appointment"
  else "general_query"

/-- A LangChain message: `HumanMessage` or `AIMessage`. -/
inductive LMsg where
  | human (content : String)
  | ai (content : String)
  deriving DecidableEq, Repr

/-- The content of a LangChain message. -/
def LMsg.content : LMsg → String
  | .human c => c
  | .ai c => c

/-- The role string `process_message` assigns when serializing a message. -/
def LMsg.role : LMsg → String
  | .human _ => "user"
  | .ai _ => "assistant"

/-- A `{role, content}` conversation-history item. -/
structure HMsg where
  role : String
  content : String
  deriving DecidableEq, Repr

/-- A produced `{start, end}` slot dictionary. -/
structure Slot where
  start : DT
  stop : DT
  deriving DecidableEq, Repr

/-- The per-session context dictionary, with the keys the orchestrator uses. -/
structure Ctx where
  error : Option String := none
  last_discussed : Option Spec := none
  requested_slot_past : Bool := false
  requested_slot_busy : Bool := false
  response : Option String := none
  deriving DecidableEq, Repr

/-- The `confirmation_data` payload (the source stores the UTC instants as
ISO strings; the model keeps the instants, which the fixed-offset conversion
preserves). -/
structure Payload where
  start_time : DT
  end_time : DT
  title : String
  description : String
  location : String
  user_timezone : String
  deriving DecidableEq, Repr

/-- `ConversationState` of `backend/agent.py`. -/
structure CState where
  messages : List LMsg
  context : Ctx
  intent : Option String := none
  extracted_datetime : Option Spec := none
  duration_minutes : Nat := 30
  needs_confirmation : Bool := false
  confirmation_data : Option Payload := none
  available_slots : Option (List Slot) := none
  user_timezone : String := "UTC"
  session_id : String := "default"
  deriving DecidableEq, Repr

/-- The Google Calendar service as seen by the orchestrator.
`checkAvail` is total because `CalendarService.check_availability` returns
`False` on any exception; the slot queries can raise (`Except.error`). -/
structure CalOracle where
  isAuth : Bool
  checkAvail : DT → DT → Bool
  findSlots : DT → DT → Nat → Except String (List Slot)
  getAvail : DT → DT → Nat → Except String (List Slot)

/-- All external collaborators of one turn, plus the wall-clock reading. -/
structure Oracles where
  llmIntent : String → Except Unit String
  llmText : String → Except Unit String
  du : DuOracle
  clock : DT
  cal : CalOracle
  fmtDay : DT → String
  fmtTime : DT → String
  fmtFull : DT → String

/-- `CalendarAgent._parse_intent`: the Gemini classification with the
rule-based fallback; on an empty message list the subscript `messages[-1]`
raises and the outer handler sets `general_query`. -/
def parseIntentStage (o : Oracles) (s : CState) : CState :=
  match s.messages.getLast? with
  | none => { s with intent := some "general_query" }
  | some m =>
    let message := strLower m.content
    match o.llmIntent message with
    | .ok resp =>
      let intent := strLower (strTrim resp)
      { s with intent := some (
          if strContains intent "book_appointment" then "book_appointment"
          else if strContains intent "check_availability" then "check_availability"
          else if strContains intent "modify_appointment" then "modify_appointment"
          else "general_query") }
    | .error _ => { s with intent := some (ruleIntent message) }

/-- `CalendarAgent._parse_datetime`: run the resolver on the last message;
when it produced a result, store it (the same dictionary object) both as
`extracted_datetime` and as the sticky `last_discussed_datetime`, and when
the message carries a non-zero explicit duration, overwrite the duration and
set `end = start + duration` on that shared dictionary. -/
def parseDatetimeStage (du : DuOracle) (c : DT) (s : CState) : CState :=
  match s.messages.getLast? with
  | none => s
  | some m =>
    match parse du m.content c with
    | none => s
    | some spec0 =>
      let spec :=
        match extract_duration m.content with
        | some d =>
          if d != 0 then
            { spec0 with duration_minutes := some d, stop := addMinutes spec0.start d }
          else spec0
        | none => spec0
      let d2 := match extract_duration m.content with
        | some d => if d != 0 then d else s.duration_minutes
        | none => s.duration_minutes
      { s with extracted_datetime := some spec, duration_minutes := d2,
               context := { s.context with last_discussed := some spec } }

/-- Python truthiness of `state.available_slots` (`None` and `[]` are falsy). -/
def slotsTruthy : Option (List Slot) → Bool
  | some (_ :: _) => true
  | _ => false

/-- `CalendarAgent._decide_next_step`. -/
def decideNext (s : CState) : String :=
  if s.context.error.isSome then "generate_response"
  else if s.intent == some "book_appointment" then
    if s.extracted_datetime.isSome && slotsTruthy s.available_slots then
      "generate_response"
    else if s.extracted_datetime.isSome then "check_availability"
    else "generate_response"
  else if s.intent == some "check_availability" then "check_availability"
  else "generate_response"

/-- The per-day loop of the multi-day branch of `_check_availability`:
for every calendar day of the span, build the same-day sub-window from the
requested hour bounds, skip days whose sub-window start is not after `now`,
and concatenate the slot lists; an exception aborts the whole loop. -/
def multiDayCollect (o : Oracles) (start stop : DT) (dur : Nat) : Except String (List Slot) :=
  ((List.range ((stop.day - start.day + 1).toNat)).map (fun i => start.day + i)).foldlM
    (fun acc d =>
      let dayStart := replaceTime ⟨d, start.us, start.aware⟩ (hourOf start) (minuteOf start) 0 0
      let dayEnd := replaceTime ⟨d, start.us, start.aware⟩ (hourOf stop) (minuteOf stop) 0 0
      if dtLt o.clock dayStart then
        match o.cal.findSlots dayStart dayEnd dur with
        | .ok slots => .ok (acc ++ slots)
        | .error e => .error e
      else .ok acc)
    []

/-- The part of `_check_availability` that runs once a temporal spec is in
hand (either freshly extracted or restored from the sticky context). -/
def checkWithSpec (o : Oracles) (s : CState) (ed : Spec) : CState :=
  let now := o.clock
  let start := ed.start
  let multiDay := ed.is_range && !ed.is_full_day && decide (ed.stop.day > start.day)
  if multiDay then
    match multiDayCollect o start ed.stop s.duration_minutes with
    | .ok all =>
      { s with available_slots := some (all.filter (fun sl => decide (dtLt now sl.start))) }
    | .error e => { s with context := { s.context with error := some e } }
  else if ed.is_range || ed.is_full_day then
    match o.cal.findSlots start ed.stop s.duration_minutes with
    | .ok slots =>
      { s with available_slots := some (slots.filter (fun sl => decide (dtLt now sl.start))) }
    | .error e => { s with context := { s.context with error := some e } }
  else
    let stop2 := addMinutes start s.duration_minutes
    if dtLe start now then
      { s with context := { s.context with requested_slot_past := true },
               available_slots := some [] }
    else if o.cal.checkAvail start stop2 then
      { s with available_slots := some [⟨start, stop2⟩] }
    else
      let dateStart := replaceTime start 0 0 0 0
      match o.cal.findSlots dateStart (addDays dateStart 1) s.duration_minutes with
      | .ok alts =>
        { s with context := { s.context with requested_slot_busy := true },
                 available_slots :=
                   some ((alts.filter (fun sl => decide (dtLt now sl.start))).take 5) }
      | .error e =>
        { s with context := { s.context with requested_slot_busy := true, error := some e } }

/-- `CalendarAgent._check_availability`. -/
def checkAvailabilityStage (o : Oracles) (s : CState) : CState :=
  if !o.cal.isAuth then
    { s with context :=
        { s.context with error := some "Not authenticated with Google Calendar" } }
  else
    match s.extracted_datetime, s.context.last_discussed with
    | none, none =>
      match o.cal.getAvail o.clock (addDays o.clock 7) s.duration_minutes with
      | .ok slots =>
        { s with
          available_slots := some (slots.filter (fun sl => decide (dtLt o.clock sl.start))) }
      | .error e => { s with context := { s.context with error := some e } }
    | none, some last => checkWithSpec o { s with extracted_datetime := some last } last
    | some ed, _ => checkWithSpec o s ed

/-- `'sep'.join(parts)`. -/
def joinSep (sep : String) (parts : List String) : String :=
  String.intercalate sep parts

/-- Append a formatted time under its day key, preserving the first-seen day
order (Python dict insertion order in the grouping loops). -/
def insertGrp (acc : List (String × List String)) (key t : String) :
    List (String × List String) :=
  match acc with
  | [] => [(key, [t])]
  | (k, ts) :: rest =>
    if k == key then (k, ts ++ [t]) :: rest else (k, ts) :: insertGrp rest key t

/-- The `slots_by_day` grouping of the response composers. -/
def groupByDay (o : Oracles) (slots : List Slot) : List (String × List String) :=
  slots.foldl (fun acc sl => insertGrp acc (o.fmtDay sl.start) (o.fmtTime sl.start)) []

/-- The `slots_info` lines of `_generate_availability_response` (days with
more than 5 slots list the first 3 plus a count). -/
def slotsInfoAvail (gs : List (String × List String)) : List String :=
  gs.map (fun g =>
    if g.2.length > 5 then
      g.1 ++ ": " ++ joinSep ", " (g.2.take 3) ++ ", and " ++
        toString (g.2.length - 3) ++ " more slots"
    else g.1 ++ ": " ++ joinSep ", " g.2)

/-- `CalendarAgent._generate_availability_response`. -/
def genAvailability (o : Oracles) (s : CState) : String :=
  match s.context.error with
  | some e => "I encountered an issue: " ++ e
  | none =>
    if !slotsTruthy s.available_slots then
      if s.extracted_datetime.isSome then
        "I could not find any available slots for that time. Would you like me to suggest some alternative times?"
      else
        "It looks like your calendar is quite busy. Let me know if you would like to check a specific time or date range."
    else
      let info := slotsInfoAvail (groupByDay o (s.available_slots.getD []))
      let userMsg := match s.messages.getLast? with
        | some m => m.content
        | none => "availability check"
      match o.llmText (userMsg ++ "\n" ++ joinSep "\n" info) with
      | .ok t => strTrim t
      | .error _ =>
        "Here are your available slots:" ++
          joinSep "" (info.map (fun i => "\n• " ++ i)) ++
          "\n\nWould you like to book any of these slots?"

/-- `CalendarAgent._generate_booking_response`; also performs the state
mutation of the confirmation branch.  In the `requested_slot_busy` branch the
source iterates `state.available_slots`, which raises when it is `None`; the
surrounding handler then returns the generic trouble message. -/
def genBooking (o : Oracles) (s : CState) : CState × String :=
  match s.context.error with
  | some e => (s, "I encountered an issue: " ++ e)
  | none =>
    match s.extracted_datetime with
    | none =>
      (s, "I would be happy to help you book an appointment! Could you please specify when you would like to schedule it?")
    | some _ =>
      if s.context.requested_slot_past then
        (s, "I notice that time has already passed. Would you like me to suggest some available times for today or upcoming days?")
      else if !slotsTruthy s.available_slots then
        if s.context.requested_slot_busy then
          match s.available_slots with
          | none => (s, "I had trouble processing your booking request. Please try again.")
          | some slots =>
            (s, joinSep "\n"
              (("That time slot is not available. Here are some alternative times for that day:"
                  :: slots.map (fun sl => "• " ++ o.fmtTime sl.start)) ++
                ["\nWould you like to book one of these times?"]))
        else
          (s, "I could not find any available slots for that time range. Would you like to try a different day or time?")
      else
        let slots := s.available_slots.getD []
        if slots.length > 1 then
          let gs := groupByDay o slots
          (s, joinSep "\n"
            (("Great! I found " ++ toString slots.length ++ " available " ++
                toString s.duration_minutes ++ "-minute slots:")
              :: gs.map (fun g => "**" ++ g.1 ++ ":** " ++ joinSep ", " g.2) ++
              ["\nWhich time works best for you?"]))
        else
          match slots with
          | [sl] =>
            ({ s with
                needs_confirmation := true,
                confirmation_data := some ⟨sl.start, sl.stop, "Meeting", "", "", s.user_timezone⟩ },
             "Perfect! I can book a " ++ toString s.duration_minutes ++
               "-minute meeting for " ++ o.fmtFull sl.start ++
               ". Would you like me to confirm this booking?")
          | _ => (s, "I am sorry, I had trouble finding a suitable time. Please try again.")

/-- `CalendarAgent._generate_modification_response`. -/
def genModificationText : String :=
  "I can help you modify your appointments. Could you please specify which appointment you would like to change and what modifications you need?"

/-- `CalendarAgent._generate_general_response`. -/
def genGeneral (o : Oracles) (s : CState) : String :=
  let userMsg := match s.messages.getLast? with
    | some m => m.content
    | none => ""
  match o.llmText userMsg with
  | .ok t => strTrim t
  | .error _ =>
    "I am here to help you manage your calendar! You can ask me to check your availability, book appointments, or modify existing ones. What would you like to do?"

/-- `CalendarAgent._generate_response`: dispatch on the intent and append the
response to the conversation as an `AIMessage`.  Every dispatch target is
total (each catches its own collaborator failures), so the append always
runs. -/
def generateResponseStage (o : Oracles) (s : CState) : CState :=
  let rs : CState × String :=
    if s.intent == some "check_availability" then (s, genAvailability o s)
    else if s.intent == some "book_appointment" then genBooking o s
    else if s.intent == some "modify_appointment" then (s, genModificationText)
    else (s, genGeneral o s)
  { rs.1 with messages := rs.1.messages ++ [.ai rs.2] }

/-- One execution of the compiled LangGraph:
`parse_intent → parse_datetime → (conditional) → generate_response`. -/
def runGraph (o : Oracles) (s0 : CState) : CState :=
  let s1 := parseIntentStage o s0
  let s2 := parseDatetimeStage o.du o.clock s1
  let s3 :=
    if decideNext s2 == "check_availability" then checkAvailabilityStage o s2
    else s2
  generateResponseStage o s3

/-- The initial `ConversationState` built by `process_message`: LangChain
messages from the history (role `user` gives a `HumanMessage`, everything
else an `AIMessage`), the stored session context, and default field values. -/
def initState (history : List HMsg) (ctx : Ctx) (tz sid : String) : CState :=
  { messages := history.map (fun item =>
      if item.role == "user" then .human item.content else .ai item.content),
    context := ctx, user_timezone := tz, session_id := sid }

/-- The structured result of one `process_message` turn. -/
structure PMResult where
  conversation_history : List HMsg
  session_id : String
  needs_confirmation : Bool
  confirmation_data : Option Payload
  available_slots : Option (List Slot)
  context : Ctx
  deriving DecidableEq, Repr

/-- `CalendarAgent.process_message`: run the graph on the initial state and
serialize the final state.  Every stage catches its own exceptions, so for
the modelled (well-formed) inputs the surrounding `try` never fires and the
pipeline is total by construction. -/
def process_message (o : Oracles) (sid tz : String) (history : List HMsg)
    (ctx : Ctx) : PMResult :=
  let fs := runGraph o (initState history ctx tz sid)
  { conversation_history := fs.messages.map (fun m => ⟨m.role, m.content⟩),
    session_id := sid,
    needs_confirmation := fs.needs_confirmation,
    confirmation_data := fs.confirmation_data,
    available_slots := fs.available_slots,
    context := fs.context }

/-! ## Concrete evaluation fixtures

Concrete oracle instances used to evaluate the model at specific inputs. -/

/-- Offset of the nearest strictly-future occurrence of weekday `num` from
weekday `wd` (the `days_ahead` computation of `_parse_date_part` before the
`next` adjustment). -/
def nearestGap (wd num : Int) : Int :=
  if num - wd ≤ 0 then num - wd + 7 else num - wd

/-- A `dateutil` oracle that always raises (no recognizable date). -/
def duNone : DuOracle := fun _ _ => none

/-- A `dateutil` oracle that resolves the text to 2 PM on the default date. -/
def duTwoPm : DuOracle := fun _ d => some (replaceTime d 14 0 0 0)

/-- A Monday-midnight wall-clock reading. -/
def dtMon : DT := ⟨0, 0, true⟩

/-- A calendar service that is not authenticated and whose queries raise. -/
def calFail : CalOracle :=
  { isAuth := false, checkAvail := fun _ _ => false,
    findSlots := fun _ _ _ => .error "boom",
    getAvail := fun _ _ _ => .error "boom" }

/-- A collaborator bundle whose generation capability always fails (every
call site must fall back deterministically). -/
def oracleFail : Oracles :=
  { llmIntent := fun _ => .error (), llmText := fun _ => .error (),
    du := duNone, clock := dtMon, cal := calFail,
    fmtDay := fun _ => "day", fmtTime := fun _ => "time", fmtFull := fun _ => "full" }

/-- A collaborator bundle that classifies every message as a booking and
resolves a concrete 2 PM instant. -/
def oracleBook : Oracles :=
  { oracleFail with llmIntent := fun _ => .ok "book_appointment", du := duTwoPm }

/-- A session context carrying an unresolved error from a previous turn. -/
def ctxErr : Ctx := { error := some "prior failure" }

/-! ## Lemmas about the Availability Engine -/

theorem mem_carveAux {dur : Int} (hdur : 0 < dur) :
    ∀ {fuel : Nat} {cur gapEnd : Int} {s : Iv}, s ∈ carveAux dur fuel cur gapEnd →
      cur ≤ s.start ∧ s.stop = s.start + dur ∧ s.start + dur ≤ gapEnd := by
  intro fuel
  induction fuel with
  | zero => intro cur gapEnd s h; simp [carveAux] at h
  | succ f ih =>
    intro cur gapEnd s h
    simp only [carveAux] at h
    split at h
    · rcases List.mem_cons.mp h with rfl | h2
      · refine ⟨le_refl _, rfl, ?_⟩
        show cur + dur ≤ gapEnd
        assumption
      · obtain ⟨h1, h2', h3⟩ := ih h2
        exact ⟨by omega, h2', h3⟩
    · simp at h

theorem mem_carve {dur cur gapEnd : Int} {s : Iv} (hdur : 0 < dur)
    (h : s ∈ carve cur gapEnd dur) :
    cur ≤ s.start ∧ s.stop = s.start + dur ∧ s.start + dur ≤ gapEnd :=
  mem_carveAux hdur h

theorem pairwise_carveAux {dur : Int} (hdur : 0 < dur) :
    ∀ (fuel : Nat) (cur gapEnd : Int),
      List.Pairwise (fun a b : Iv => a.start < b.start) (carveAux dur fuel cur gapEnd) := by
  intro fuel
  induction fuel with
  | zero => intro cur gapEnd; simp [carveAux]
  | succ f ih =>
    intro cur gapEnd
    simp only [carveAux]
    split
    · refine List.Pairwise.cons ?_ (ih (cur + dur) gapEnd)
      intro s hs
      have := (mem_carveAux hdur hs).1
      show cur < s.start
      omega
    · exact List.Pairwise.nil

theorem pairwise_carve {dur cur gapEnd : Int} (hdur : 0 < dur) :
    List.Pairwise (fun a b : Iv => a.start < b.start) (carve cur gapEnd dur) :=
  pairwise_carveAux hdur _ _ _

theorem mem_freeSlots_stop {dur : Int} :
    ∀ (l : List Iv) {s : Iv}, s ∈ freeSlotsOfSorted dur l → s.stop = s.start + dur := by
  intro l
  induction l with
  | nil => intro s hs; simp [freeSlotsOfSorted] at hs
  | cons x xs ih =>
    intro s hs
    match xs, hs with
    | [], hs => simp [freeSlotsOfSorted] at hs
    | y :: ys, hs =>
      rcases List.mem_append.mp hs with h1 | h2
      · -- within the slots of one gap, the end is start + duration by construction
        clear ih
        unfold carve at h1
        generalize (y.start - x.stop).toNat + 1 = fuel at h1
        generalize x.stop = cur at h1
        induction fuel generalizing cur with
        | zero => simp [carveAux] at h1
        | succ f ihf =>
          simp only [carveAux] at h1
          split at h1
          · rcases List.mem_cons.mp h1 with rfl | h2
            · rfl
            · exact ihf _ h2
          · simp at h1
      · exact ih h2

theorem freeSlots_start_ge {dur : Int} (hdur : 0 < dur) :
    ∀ (xs : List Iv) (x : Iv), List.Pairwise startLe (x :: xs) →
      (∀ y ∈ x :: xs, y.start ≤ y.stop) →
      ∀ s ∈ freeSlotsOfSorted dur (x :: xs), x.start ≤ s.start := by
  intro xs
  induction xs with
  | nil => intro x _ _ s hs; simp [freeSlotsOfSorted] at hs
  | cons y ys ih =>
    intro x hp hwf s hs
    rcases List.mem_append.mp hs with h1 | h2
    · have hx := hwf x (by simp)
      have := (mem_carve hdur h1).1
      calc x.start ≤ x.stop := hx
        _ ≤ s.start := this
    · have hy := ih y hp.tail (fun z hz => hwf z (List.mem_cons_of_mem _ hz)) s h2
      have hxy : startLe x y := (List.pairwise_cons.mp hp).1 y (by simp)
      exact le_trans hxy hy

theorem freeSlots_pairwise {dur : Int} (hdur : 0 < dur) :
    ∀ (l : List Iv), List.Pairwise startLe l → (∀ y ∈ l, y.start ≤ y.stop) →
      List.Pairwise (fun a b : Iv => a.start < b.start) (freeSlotsOfSorted dur l) := by
  intro l
  induction l with
  | nil => intro _ _; simp [freeSlotsOfSorted]
  | cons x xs ih =>
    intro hp hwf
    match xs, hp, hwf, ih with
    | [], _, _, _ => simp [freeSlotsOfSorted]
    | y :: ys, hp, hwf, ih =>
      show List.Pairwise _ (carve x.stop y.start dur ++ freeSlotsOfSorted dur (y :: ys))
      rw [List.pairwise_append]
      refine ⟨pairwise_carve hdur, ih hp.tail (fun z hz => hwf z (List.mem_cons_of_mem _ hz)), ?_⟩
      intro a ha b hb
      have ha' := (mem_carve hdur ha).2.2
      have hb' := freeSlots_start_ge hdur _ y hp.tail
        (fun z hz => hwf z (List.mem_cons_of_mem _ hz)) b hb
      show a.start < b.start
      omega

theorem noOverlap_aux {dur : Int} (hdur : 0 < dur) (r : Iv) :
    ∀ (l : List Iv), List.Pairwise startLe l → List.Pairwise stopLe l →
      (r ∈ l ∨ headStopLe r l) →
      ∀ s ∈ freeSlotsOfSorted dur l, ¬ overlaps s r := by
  intro l
  induction l with
  | nil => intro _ _ _ s hs; simp [freeSlotsOfSorted] at hs
  | cons x xs ih =>
    intro hp hq hr s hs
    match xs, hp, hq, hr, hs, ih with
    | [], _, _, _, hs, _ => simp [freeSlotsOfSorted] at hs
    | y :: ys, hp, hq, hr, hs, ih =>
      rcases List.mem_append.mp hs with h1 | h2
      · -- the slot lies in the gap `[x.stop, y.start]`
        obtain ⟨hs1, hs2, hs3⟩ := mem_carve hdur h1
        intro hov
        obtain ⟨hov1, hov2⟩ := hov
        -- place `r` relative to the pair `(x, y)`
        rcases hr with hmem | hhead
        · rcases List.mem_cons.mp hmem with rfl | hmem2
          · -- r = x : the slot starts at or after r.stop
            exact absurd hov1 (by omega)
          · -- r ∈ y :: ys : the slot ends at or before r.start
            have hyr : startLe y r := by
              rcases List.mem_cons.mp hmem2 with rfl | hmem3
              · exact le_refl _
              · exact (List.pairwise_cons.mp hp.tail).1 r hmem3
            unfold startLe at hyr
            have : s.stop ≤ r.start := by omega
            omega
        · -- r.stop ≤ x.stop ≤ slot start
          unfold headStopLe at hhead
          exact absurd hov1 (by omega)
      · -- the slot comes from the tail `y :: ys`
        refine ih hp.tail hq.tail ?_ s h2
        rcases hr with hmem | hhead
        · rcases List.mem_cons.mp hmem with rfl | hmem2
          · right
            have : stopLe r y := (List.pairwise_cons.mp hq).1 y (by simp)
            exact this
          · exact Or.inl hmem2
        · right
          unfold headStopLe at hhead
          have hxy : stopLe x y := (List.pairwise_cons.mp hq).1 y (by simp)
          unfold stopLe at hxy
          show r.stop ≤ y.stop
          omega

theorem insertionSort_cons_of_min {a : Iv} {l : List Iv} (h : ∀ y ∈ l, startLe a y) :
    List.insertionSort startLe (a :: l) = a :: List.insertionSort startLe l := by
  show List.orderedInsert startLe a (List.insertionSort startLe l) = _
  cases hsl : List.insertionSort startLe l with
  | nil => simp [List.orderedInsert]
  | cons y t =>
    have hy : y ∈ List.insertionSort startLe l := by rw [hsl]; exact List.mem_cons_self _ _
    have hay : startLe a y := h y ((List.mem_insertionSort startLe).mp hy)
    simp [List.orderedInsert, hay]

theorem sortedTimeline_eq (busy : List Iv) (ws we : Int) (hwswe : ws ≤ we)
    (hwin : ∀ b ∈ busy, ws ≤ b.start) :
    List.insertionSort startLe (⟨ws, ws⟩ :: busy ++ [⟨we, we⟩])
      = ⟨ws, ws⟩ :: List.insertionSort startLe (busy ++ [⟨we, we⟩]) := by
  apply insertionSort_cons_of_min
  intro y hy
  rcases List.mem_append.mp hy with h | h
  · exact hwin y h
  · simp only [List.mem_singleton] at h
    subst h
    exact hwswe

theorem pairwise_stopLe_timeline (busy : List Iv) (ws we : Int) (hwswe : ws ≤ we)
    (hwin : ∀ b ∈ busy, ws ≤ b.start ∧ b.stop ≤ we)
    (hnd : ∀ b ∈ busy, b.start < b.stop)
    (hdisj : ∀ a ∈ busy, ∀ b ∈ busy, a = b ∨ strongDisjoint a b) :
    List.Pairwise stopLe
      (List.insertionSort startLe (⟨ws, ws⟩ :: busy ++ [⟨we, we⟩])) := by
  rw [sortedTimeline_eq busy ws we hwswe (fun b hb => (hwin b hb).1)]
  refine List.Pairwise.cons ?_ ?_
  · intro y hy
    have hy' := (List.mem_insertionSort startLe).mp hy
    show (ws : Int) ≤ y.stop
    rcases List.mem_append.mp hy' with h | h
    · have h1 := (hwin y h).1
      have h2 := hnd y h
      omega
    · simp only [List.mem_singleton] at h
      subst h
      exact hwswe
  · have hsorted : List.Pairwise startLe (List.insertionSort startLe (busy ++ [⟨we, we⟩])) :=
      List.sorted_insertionSort startLe _
    refine List.Pairwise.imp_of_mem ?_ hsorted
    intro a b ha hb hab
    have ha' := (List.mem_insertionSort startLe).mp ha
    have hb' := (List.mem_insertionSort startLe).mp hb
    unfold startLe at hab
    show a.stop ≤ b.stop
    rcases List.mem_append.mp ha' with haB | haE
    · rcases List.mem_append.mp hb' with hbB | hbE
      · rcases hdisj a haB b hbB with rfl | hd
        · exact le_refl _
        · have hndb := hnd b hbB
          have hnda := hnd a haB
          rcases hd with h1 | h1 <;> omega
      · simp only [List.mem_singleton] at hbE
        subst hbE
        exact (hwin a haB).2
    · simp only [List.mem_singleton] at haE
      subst haE
      rcases List.mem_append.mp hb' with hbB | hbE
      · have h1 := hnd b hbB
        have hab2 : (we : Int) ≤ b.start := hab
        show (we : Int) ≤ b.stop
        omega
      · simp only [List.mem_singleton] at hbE
        subst hbE
        exact le_refl _

/-- C1 — For every set of busy intervals (possibly unsorted), provided the
busy intervals are pairwise disjoint, non-empty, and contained in the window,
every slot returned by `find_free_slots` has length exactly `duration` and
overlaps no busy interval under the half-open test.  (The exact-duration
conjunct needs none of the disjointness hypotheses; the no-overlap conjunct
fails without them, see the counterexample.) -/
theorem find_free_slots_exact_and_disjoint (busy : List Iv) (ws we dur : Int)
    (hdur : 0 < dur) (hwswe : ws ≤ we)
    (hwin : ∀ b ∈ busy, ws ≤ b.start ∧ b.stop ≤ we)
    (hnd : ∀ b ∈ busy, b.start < b.stop)
    (hdisj : ∀ a ∈ busy, ∀ b ∈ busy, a = b ∨ strongDisjoint a b) :
    ∀ s ∈ find_free_slots busy ws we dur,
      s.stop - s.start = dur ∧ ∀ b ∈ busy, ¬ overlaps s b := by
  intro s hs
  unfold find_free_slots at hs
  constructor
  · have := mem_freeSlots_stop _ hs
    omega
  · intro b hb
    refine noOverlap_aux hdur b _ (List.sorted_insertionSort startLe _)
      (pairwise_stopLe_timeline busy ws we hwswe hwin hnd hdisj) (Or.inl ?_) s hs
    exact (List.mem_insertionSort startLe).mpr
      (List.mem_cons_of_mem _ (List.mem_append_left _ hb))

/-- C1 counterexample — with mutually overlapping busy intervals (which the
claim explicitly allows), `find_free_slots` can return a slot that overlaps a
busy interval: with busy `[0,100) ∪ [10,20)`, window `[0,200)` and duration
30, the slot `[20,50)` overlaps `[0,100)`. -/
theorem find_free_slots_overlap_counterexample :
    ¬ (∀ s ∈ find_free_slots [⟨0, 100⟩, ⟨10, 20⟩] 0 200 30,
        ∀ b ∈ [Iv.mk 0 100, Iv.mk 10 20], ¬ overlaps s b) := by
  decide

/-- Witness for C1 at a concrete input: one busy interval `[60,120)` inside
the window `[0,240)` with duration 30. -/
theorem find_free_slots_exact_and_disjoint_witness :
    (0 : Int) < 30 ∧ (0 : Int) ≤ 240 ∧
    (∀ b ∈ [Iv.mk 60 120], (0 : Int) ≤ b.start ∧ b.stop ≤ 240) ∧
    (∀ b ∈ [Iv.mk 60 120], b.start < b.stop) ∧
    (∀ a ∈ [Iv.mk 60 120], ∀ b ∈ [Iv.mk 60 120], a = b ∨ strongDisjoint a b) ∧
    ∀ s ∈ find_free_slots [⟨60, 120⟩] 0 240 30,
      s.stop - s.start = 30 ∧ ∀ b ∈ [Iv.mk 60 120], ¬ overlaps s b :=
  ⟨by decide, by decide, by decide, by decide, by decide,
    find_free_slots_exact_and_disjoint [⟨60, 120⟩] 0 240 30
      (by decide) (by decide) (by decide) (by decide) (by decide)⟩

/-- C6 — For every busy set (unsorted and overlapping allowed, each interval
well-formed) and every window and positive duration, the returned slot list
is strictly ascending by start and has no duplicates. -/
theorem find_free_slots_sorted_nodup (busy : List Iv) (ws we dur : Int)
    (hdur : 0 < dur) (hwf : ∀ b ∈ busy, b.start ≤ b.stop) :
    List.Pairwise (fun a b : Iv => a.start < b.start) (find_free_slots busy ws we dur)
      ∧ (find_free_slots busy ws we dur).Nodup := by
  have hpair : List.Pairwise (fun a b : Iv => a.start < b.start)
      (find_free_slots busy ws we dur) := by
    unfold find_free_slots
    apply freeSlots_pairwise hdur
    · exact List.sorted_insertionSort startLe _
    · intro y hy
      have hy' := (List.mem_insertionSort startLe).mp hy
      rcases List.mem_cons.mp hy' with rfl | h
      · exact le_refl _
      · rcases List.mem_append.mp h with h | h
        · exact hwf y h
        · simp only [List.mem_singleton] at h
          subst h
          exact le_refl _
  refine ⟨hpair, List.Pairwise.imp ?_ hpair⟩
  intro a b hlt heq
  rw [heq] at hlt
  exact lt_irrefl _ hlt

/-- Witness for C6 at a concrete input: unsorted, mutually overlapping busy
intervals. -/
theorem find_free_slots_sorted_nodup_witness :
    (0 : Int) < 30 ∧
    (∀ b ∈ [Iv.mk 50 170, Iv.mk 40 60], b.start ≤ b.stop) ∧
    (List.Pairwise (fun a b : Iv => a.start < b.start)
        (find_free_slots [⟨50, 170⟩, ⟨40, 60⟩] 0 240 30)
      ∧ (find_free_slots [⟨50, 170⟩, ⟨40, 60⟩] 0 240 30).Nodup) :=
  ⟨by decide, by decide,
    find_free_slots_sorted_nodup [⟨50, 170⟩, ⟨40, 60⟩] 0 240 30 (by decide) (by decide)⟩

/-! ## Lemmas about the Temporal Expression Resolver -/

theorem replaceTime_aware (d : DT) (h m s u : Nat) :
    (replaceTime d h m s u).aware = d.aware := rfl

theorem addDays_aware (d : DT) (n : Int) : (addDays d n).aware = d.aware := rfl

theorem addMinutes_aware (d : DT) (n : Nat) : (addMinutes d n).aware = d.aware := rfl

theorem ensureAware_aware (d : DT) : (ensureAware d).aware = true := by
  unfold ensureAware localize
  split
  · assumption
  · rfl

theorem toMicros_addMinutes (d : DT) (n : Nat) :
    toMicros (addMinutes d n) = toMicros d + (n : Int) * 60000000 := by
  unfold toMicros addMinutes usPerDay
  push_cast
  omega

theorem dtLe_addMinutes (d : DT) (n : Nat) : dtLe d (addMinutes d n) := by
  rw [dtLe, toMicros_addMinutes]
  omega

theorem dtLe_replaceTime (d : DT) (h1 m1 s1 u1 h2 m2 s2 u2 : Nat)
    (hle : ((h1 * 60 + m1) * 60 + s1) * 1000000 + u1 ≤
      ((h2 * 60 + m2) * 60 + s2) * 1000000 + u2) :
    dtLe (replaceTime d h1 m1 s1 u1) (replaceTime d h2 m2 s2 u2) := by
  unfold dtLe toMicros replaceTime
  dsimp only
  omega

theorem parseDatePart_aware (du : DuOracle) (text : String) (c : DT)
    (hc : c.aware = true) : (parseDatePart du text c).aware = true := by
  unfold parseDatePart
  split
  · exact hc
  · split
    · exact hc
    · split
      · exact ensureAware_aware _
      · exact hc

theorem durOr30_pos (text : String) : 0 < durOr30 text := by
  unfold durOr30
  cases h : extract_duration text with
  | none => simp
  | some d =>
    by_cases hd : d = 0
    · simp [hd]
    · simp only [beq_iff_eq, if_neg hd]
      omega

theorem processGroups_found (du : DuOracle) (text : String) (c : DT)
    (g : RawGroups) (r : Spec) (h : processGroups du text c g = .found r) :
    r.start.aware = true ∧ r.stop.aware = true ∧ r.duration_minutes = none := by
  unfold processGroups at h
  dsimp only at h
  split at h
  · split at h
    · rw [ROut.found.injEq] at h
      subst h
      exact ⟨ensureAware_aware _, ensureAware_aware _, rfl⟩
    · exact absurd h (by simp)
  · exact absurd h (by simp)

theorem parseTimeRange_found (du : DuOracle) (text : String) (c : DT) (r : Spec)
    (h : parseTimeRange du text c = .found r) :
    r.start.aware = true ∧ r.stop.aware = true ∧ r.duration_minutes = none := by
  unfold parseTimeRange at h
  split at h
  · exact processGroups_found du text c _ r h
  · exact absurd h (by simp)

theorem parseSingleDatetime_invariants (du : DuOracle) (text : String) (c : DT)
    (dur : Nat) (s : Spec) (hc : c.aware = true) (hdur : 0 < dur)
    (h : parseSingleDatetime du text c dur = some s) :
    s.start.aware = true ∧ s.stop.aware = true ∧
      (∀ d, s.duration_minutes = some d → 0 < d) ∧ dtLe s.start s.stop := by
  have hdp : (parseDatePart du text c).aware = true := parseDatePart_aware du text c hc
  unfold parseSingleDatetime at h
  split at h
  · -- `findPeriod text = some p`
    rename_i x p hfind
    dsimp only at h
    split at h
    · -- full-day branch
      rw [Option.some.injEq] at h
      subst h
      refine ⟨?_, ?_, ?_, ?_⟩
      · dsimp only
        rw [replaceTime_aware]
        exact hdp
      · dsimp only
        rw [replaceTime_aware]
        exact hdp
      · intro d hd
        simp at hd
      · dsimp only
        exact dtLe_replaceTime _ _ _ _ _ _ _ _ _ (by norm_num)
    · split at h
      · -- period branch
        split at h
        · -- exact instant
          rw [Option.some.injEq] at h
          subst h
          refine ⟨?_, ?_, ?_, ?_⟩
          · dsimp only
            rw [replaceTime_aware]
            exact hdp
          · dsimp only
            rw [addMinutes_aware, replaceTime_aware]
            exact hdp
          · intro d hd
            simp only [Option.some.injEq] at hd
            omega
          · dsimp only
            exact dtLe_addMinutes _ _
        · split at h
          · -- bounded period
            rename_i hguard
            rw [Option.some.injEq] at h
            subst h
            have hmem := List.mem_of_find?_eq_some hfind
            simp only [Bool.and_eq_true, decide_eq_true_eq] at hguard
            have hb : p.2.1 ≤ p.2.2 := by
              fin_cases hmem <;> simp_all
            refine ⟨?_, ?_, ?_, ?_⟩
            · dsimp only
              rw [replaceTime_aware]
              exact hdp
            · dsimp only
              rw [replaceTime_aware]
              exact hdp
            · intro d hd
              simp at hd
            · dsimp only
              refine dtLe_replaceTime _ _ _ _ _ _ _ _ _ ?_
              omega
          · exact absurd h (by simp)
      · -- fuzzy dateutil branch
        split at h
        · rw [Option.some.injEq] at h
          subst h
          refine ⟨?_, ?_, ?_, ?_⟩
          · dsimp only
            exact ensureAware_aware _
          · dsimp only
            rw [addMinutes_aware]
            exact ensureAware_aware _
          · intro d hd
            simp only [Option.some.injEq] at hd
            omega
          · dsimp only
            exact dtLe_addMinutes _ _
        · exact absurd h (by simp)
  · -- `findPeriod text = none`
    dsimp only at h
    split at h
    · -- full-day branch
      rw [Option.some.injEq] at h
      subst h
      refine ⟨?_, ?_, ?_, ?_⟩
      · dsimp only
        rw [replaceTime_aware]
        exact hdp
      · dsimp only
        rw [replaceTime_aware]
        exact hdp
      · intro d hd
        simp at hd
      · dsimp only
        exact dtLe_replaceTime _ _ _ _ _ _ _ _ _ (by norm_num)
    · split at h
      · -- `hasPeriod` true with no matching period cannot return a value
        exact absurd h (by simp)
      · split at h
        · rw [Option.some.injEq] at h
          subst h
          refine ⟨?_, ?_, ?_, ?_⟩
          · dsimp only
            exact ensureAware_aware _
          · dsimp only
            rw [addMinutes_aware]
            exact ensureAware_aware _
          · intro d hd
            simp only [Option.some.injEq] at hd
            omega
          · dsimp only
            exact dtLe_addMinutes _ _
        · exact absurd h (by simp)

/-- C4 — Every non-null resolver result has timezone-aware bounds (given an
aware clock, as `datetime.now(tz)` always is) and a positive
`duration_minutes` when that key is present; `start <= end` holds for every
result EXCEPT those produced by the explicit clock-range patterns, where the
bounds are taken verbatim and can be reversed (see the counterexample). -/
theorem parse_invariants (du : DuOracle) (text : String) (c : DT) (s : Spec)
    (hc : c.aware = true) (h : parse du text c = some s) :
    s.start.aware = true ∧ s.stop.aware = true ∧
      (∀ d, s.duration_minutes = some d → 0 < d) ∧
      (parseTimeRange du (strTrim (strLower text)) c = .nomatch →
        dtLe s.start s.stop) := by
  unfold parse at h
  dsimp only at h
  split at h
  · exact absurd h (by simp)
  · -- range branch
    rename_i r hr
    rw [Option.some.injEq] at h
    subst h
    obtain ⟨h1, h2, h3⟩ := parseTimeRange_found du _ c r hr
    refine ⟨h1, h2, by intro d hd; rw [h3] at hd; simp at hd, ?_⟩
    intro hnm
    rw [hr] at hnm
    simp at hnm
  · rename_i hr
    obtain ⟨h1, h2, h3, h4⟩ := parseSingleDatetime_invariants du _ c _ s hc
      (durOr30_pos _) h
    exact ⟨h1, h2, h3, fun _ => h4⟩

/-- C4 counterexample — the resolver output can violate `start <= end`: for
`"between 5 and 2 pm"` the inferred start is 5 PM and the end 2 PM of the
same day, so the returned spec has `start > end`. -/
theorem parse_start_le_end_counterexample :
    (parse duNone "between 5 and 2 pm" dtMon).map
        (fun s => decide (dtLe s.start s.stop)) = some false := by
  decide

/-- Witness for C4 at a concrete input (`"noon tomorrow"`, resolved via the
exact-instant period branch). -/
theorem parse_invariants_witness :
    dtMon.aware = true ∧
    parse duNone "noon tomorrow" dtMon =
      some ⟨⟨1, 43200000000, true⟩, ⟨1, 45000000000, true⟩, false, false, some 30⟩ ∧
    ((⟨1, 43200000000, true⟩ : DT).aware = true ∧
      (⟨1, 45000000000, true⟩ : DT).aware = true ∧
      (∀ d, (some 30 : Option Nat) = some d → 0 < d) ∧
      (parseTimeRange duNone (strTrim (strLower "noon tomorrow")) dtMon = .nomatch →
        dtLe ⟨1, 43200000000, true⟩ ⟨1, 45000000000, true⟩)) :=
  ⟨rfl, by decide,
    parse_invariants duNone "noon tomorrow" dtMon
      ⟨⟨1, 43200000000, true⟩, ⟨1, 45000000000, true⟩, false, false, some 30⟩
      rfl (by decide)⟩

/-- C2 amended — the resolver is deterministic given (text, timezone, wall
clock), but the wall clock is a real input: for the fixed text
`"tomorrow morning"` the result is, for every `dateutil` oracle and every
clock reading, the 5 AM-noon range of the day after the clock day — so the
output tracks the hidden wall-clock reading (`DateTimeParser.parse` has no
`now` parameter). -/
theorem parse_function_of_clock (du : DuOracle) (c : DT) :
    parse du "tomorrow morning" c =
      some { start := ⟨c.day + 1, 18000000000, c.aware⟩,
             stop := ⟨c.day + 1, 43200000000, c.aware⟩,
             is_range := true, is_full_day := false, duration_minutes := none } := rfl

/-- C2 counterexample — same declared arguments (text, timezone), different
wall-clock instants, different results: the resolver is not a pure function
of its declared inputs. -/
theorem parse_wall_clock_counterexample :
    parse duNone "tomorrow morning" dtMon ≠
      parse duNone "tomorrow morning" ⟨7, 0, true⟩ := by
  decide

/-- C3 amended — AM/PM inheritance is one-directional: when only the END
bound carries the marker, the start bound inherits it (the range is processed
exactly as if both carried the marker).  The reverse direction does not hold,
see the counterexample. -/
theorem range_marker_inherited_start_from_end (du : DuOracle) (text : String)
    (c : DT) (sStr eStr p : List Char) :
    processGroups du text c ⟨sStr, none, eStr, some p⟩ =
      processGroups du text c ⟨sStr, some p, eStr, some p⟩ := rfl

/-- C3 counterexample — when only the START bound carries the marker, the end
bound does NOT inherit it: `"from 5 pm to 7"` resolves the start to 17:00 but
the end to 07:00 (the claim predicts 19:00). -/
theorem range_marker_not_inherited_counterexample :
    (parse duNone "from 5 pm to 7" dtMon).map
        (fun s => (hourOf s.start, hourOf s.stop)) = some (17, 7) := by
  decide

/-- C5 — In a text free of relative-date phrases (the "explicitly overridden"
escape of the spec), the first matching weekday name resolves as follows:
without the modifier `next`, a weekday equal to the reference weekday lands
exactly 7 days ahead (never on the reference day); with `next`, an extra 7
days is added on top of the nearest strictly-future occurrence. -/
theorem weekday_resolution (du : DuOracle) (text : String) (c : DT)
    (name : String) (num : Nat)
    (hrel : ∀ p ∈ relativePatterns, strContains text p.1 = false)
    (hwd : findWeekday text = some (name, num)) :
    (strContains text "next" = false → (num : Int) = weekdayOf c →
        parseDatePart du text c = replaceTime (addDays c 7) 0 0 0 0) ∧
    (strContains text "next" = true →
        parseDatePart du text c =
          replaceTime (addDays c (nearestGap (weekdayOf c) num + 7)) 0 0 0 0) := by
  have hrel' : findRelative text = none := by
    unfold findRelative
    rw [List.find?_eq_none]
    intro p hp
    simp [hrel p hp]
  unfold parseDatePart
  rw [hrel', hwd]
  dsimp only
  constructor
  · intro hnext heq
    rw [hnext]
    have h0 : (num : Int) - weekdayOf c = 0 := by omega
    rw [h0]
    norm_num
  · intro hnext
    rw [hnext]
    unfold nearestGap
    rfl

/-- Witness for C5 at a concrete input: resolving `"monday"` on a Monday
lands 7 days ahead. -/
theorem weekday_resolution_witness :
    (∀ p ∈ relativePatterns, strContains "monday" p.1 = false) ∧
    findWeekday "monday" = some ("monday", 0) ∧
    strContains "monday" "next" = false ∧ ((0 : Nat) : Int) = weekdayOf dtMon ∧
    parseDatePart duNone "monday" dtMon = replaceTime (addDays dtMon 7) 0 0 0 0 :=
  ⟨by decide, by decide, by decide, by decide,
    (weekday_resolution duNone "monday" dtMon "monday" 0 (by decide) (by decide)).1
      (by decide) (by decide)⟩

/-! ## Lemmas about the Conversation Orchestrator -/

/-- C7 amended — in the rule-based fallback, a booking verb together with the
word `available` or `free` (the only availability words the tie-break tests)
resolves to `check_availability`.  The other availability words of the spec
(`open`, `what time`, `any slot`) do not trigger the tie-break, see the
counterexample. -/
theorem rule_intent_tiebreak (m : String)
    (hverb : containsAny m ["book", "schedule", "arrange", "set up", "create", "add"] = true)
    (havail : strContains m "available" = true ∨ strContains m "free" = true) :
    ruleIntent m = "check_availability" := by
  have hbook : bookingMatch m = true := by
    rcases List.any_eq_true.mp hverb with ⟨w, hw, hc⟩
    have hA : containsAny m
        ["book", "schedule", "set up", "arrange", "plan", "create", "add"] = true := by
      refine List.any_eq_true.mpr ⟨w, ?_, hc⟩
      fin_cases hw <;> simp
    simp [bookingMatch, hA]
  unfold ruleIntent
  rcases havail with h | h <;> simp [hbook, h]

/-- C7 counterexample — the claimed tie-break fails for the availability word
`open`: `"book an open slot"` has the booking verb `book` and the
availability word `open`, yet the fallback classifies it as
`book_appointment`, not `check_availability`. -/
theorem rule_intent_tiebreak_counterexample :
    ruleIntent "book an open slot" ≠ "check_availability" := by
  decide

/-- Witness for C7 at a concrete message. -/
theorem rule_intent_tiebreak_witness :
    containsAny "book me when available"
        ["book", "schedule", "arrange", "set up", "create", "add"] = true ∧
    strContains "book me when available" "available" = true ∧
    ruleIntent "book me when available" = "check_availability" :=
  ⟨by decide, by decide,
    rule_intent_tiebreak "book me when available" (by decide) (Or.inl (by decide))⟩

theorem parseIntentStage_messages (o : Oracles) (s : CState) :
    (parseIntentStage o s).messages = s.messages := by
  unfold parseIntentStage
  split
  · rfl
  · dsimp only
    split <;> rfl

theorem parseIntentStage_context (o : Oracles) (s : CState) :
    (parseIntentStage o s).context = s.context := by
  unfold parseIntentStage
  split
  · rfl
  · dsimp only
    split <;> rfl

theorem parseIntentStage_slots (o : Oracles) (s : CState) :
    (parseIntentStage o s).available_slots = s.available_slots := by
  unfold parseIntentStage
  split
  · rfl
  · dsimp only
    split <;> rfl

theorem parseDatetimeStage_messages (du : DuOracle) (c : DT) (s : CState) :
    (parseDatetimeStage du c s).messages = s.messages := by
  unfold parseDatetimeStage
  split
  · rfl
  · dsimp only
    split <;> rfl

theorem parseDatetimeStage_slots (du : DuOracle) (c : DT) (s : CState) :
    (parseDatetimeStage du c s).available_slots = s.available_slots := by
  unfold parseDatetimeStage
  split
  · rfl
  · dsimp only
    split <;> rfl

theorem parseDatetimeStage_error (du : DuOracle) (c : DT) (s : CState) :
    (parseDatetimeStage du c s).context.error = s.context.error := by
  unfold parseDatetimeStage
  split
  · rfl
  · dsimp only
    split <;> rfl

theorem checkWithSpec_messages (o : Oracles) (s : CState) (ed : Spec) :
    (checkWithSpec o s ed).messages = s.messages := by
  unfold checkWithSpec
  dsimp only
  split
  · split <;> rfl
  · split
    · split <;> rfl
    · split
      · rfl
      · split
        · rfl
        · split <;> rfl

theorem checkAvailabilityStage_messages (o : Oracles) (s : CState) :
    (checkAvailabilityStage o s).messages = s.messages := by
  unfold checkAvailabilityStage
  split
  · rfl
  · split
    · split <;> rfl
    · rw [checkWithSpec_messages]
    · rw [checkWithSpec_messages]

theorem genBooking_messages (o : Oracles) (s : CState) :
    (genBooking o s).1.messages = s.messages := by
  unfold genBooking
  split
  · rfl
  · split
    · rfl
    · split
      · rfl
      · split
        · split
          · split <;> rfl
          · rfl
        · dsimp only
          split
          · rfl
          · split <;> rfl

theorem generateResponseStage_messages (o : Oracles) (s : CState) :
    ∃ resp, (generateResponseStage o s).messages = s.messages ++ [LMsg.ai resp] := by
  unfold generateResponseStage
  dsimp only
  split
  · exact ⟨_, rfl⟩
  · split
    · refine ⟨(genBooking o s).2, ?_⟩
      show (genBooking o s).1.messages ++ _ = _
      rw [genBooking_messages]
    · split
      · exact ⟨_, rfl⟩
      · exact ⟨_, rfl⟩

theorem history_roundtrip (history : List HMsg)
    (hroles : ∀ m ∈ history, m.role = "user" ∨ m.role = "assistant") :
    (history.map (fun item =>
        if item.role == "user" then LMsg.human item.content else LMsg.ai item.content)).map
      (fun m => (⟨m.role, m.content⟩ : HMsg)) = history := by
  induction history with
  | nil => rfl
  | cons x xs ih =>
    simp only [List.map_cons]
    rw [ih (fun m hm => hroles m (List.mem_cons_of_mem _ hm))]
    rcases hroles x (by simp) with h | h
    · rw [if_pos (by simp [h])]
      have : (⟨(LMsg.human x.content).role, (LMsg.human x.content).content⟩ : HMsg) = x := by
        cases x
        simp_all [LMsg.role, LMsg.content]
      rw [this]
    · have hne : ¬ (x.role == "user") = true := by
        simp [h]
      rw [if_neg hne]
      have : (⟨(LMsg.ai x.content).role, (LMsg.ai x.content).content⟩ : HMsg) = x := by
        cases x
        simp_all [LMsg.role, LMsg.content]
      rw [this]

/-- C8 — For every turn input whose history entries use the `user` and
`assistant` roles of the turn-input contract, and for EVERY behaviour of the
external collaborators (classification, generation, `dateutil`, the calendar
service — including raising), `process_message` returns the input history
preserved in order with exactly one assistant response appended.  The model
of the pipeline is total by construction because each stage catches its own
collaborator failures, which is how the source never propagates an exception
past the orchestrator boundary. -/
theorem process_message_history (o : Oracles) (sid tz : String)
    (history : List HMsg) (ctx : Ctx)
    (hroles : ∀ m ∈ history, m.role = "user" ∨ m.role = "assistant") :
    ∃ resp, (process_message o sid tz history ctx).conversation_history =
      history ++ [⟨"assistant", resp⟩] := by
  have hbranch : ∀ s : CState,
      (if decideNext s == "check_availability" then checkAvailabilityStage o s
       else s).messages = s.messages := by
    intro s
    split
    · exact checkAvailabilityStage_messages o s
    · rfl
  unfold process_message runGraph
  dsimp only
  obtain ⟨resp, hgen⟩ := generateResponseStage_messages o
    (if decideNext (parseDatetimeStage o.du o.clock
          (parseIntentStage o (initState history ctx tz sid))) == "check_availability" then
       checkAvailabilityStage o (parseDatetimeStage o.du o.clock
          (parseIntentStage o (initState history ctx tz sid)))
     else parseDatetimeStage o.du o.clock (parseIntentStage o (initState history ctx tz sid)))
  refine ⟨resp, ?_⟩
  rw [hgen, hbranch, parseDatetimeStage_messages, parseIntentStage_messages]
  show ((history.map _) ++ [LMsg.ai resp]).map _ = _
  rw [List.map_append, history_roundtrip history hroles]
  rfl

/-- Witness for C8 at a concrete turn (all collaborators failing). -/
theorem process_message_history_witness :
    (∀ m ∈ [HMsg.mk "user" "hi"], m.role = "user" ∨ m.role = "assistant") ∧
    ∃ resp, (process_message oracleFail "s" "UTC" [⟨"user", "hi"⟩] {}).conversation_history =
      [HMsg.mk "user" "hi"] ++ [⟨"assistant", resp⟩] :=
  ⟨by decide,
    process_message_history oracleFail "s" "UTC" [⟨"user", "hi"⟩] {} (by decide)⟩

/-- C9 — Whenever the resolver produced a spec and the message carries an
explicit non-zero duration, `_parse_datetime` overwrites the extracted end to
`start + duration` — for EVERY spec, including `is_range`/`is_full_day` ones,
collapsing a multi-day or period range to a single interval at the range
start; the overwritten dictionary is also what the sticky context stores. -/
theorem parse_datetime_duration_overwrite (du : DuOracle) (c : DT) (s : CState)
    (m : LMsg) (spec : Spec) (d : Nat)
    (hm : s.messages.getLast? = some m)
    (hp : parse du m.content c = some spec)
    (hd : extract_duration m.content = some d) (hd0 : d ≠ 0) :
    (parseDatetimeStage du c s).extracted_datetime =
      some { spec with duration_minutes := some d, stop := addMinutes spec.start d } ∧
    (parseDatetimeStage du c s).context.last_discussed =
      some { spec with duration_minutes := some d, stop := addMinutes spec.start d } := by
  unfold parseDatetimeStage
  have hne : (d != 0) = true := by simpa using hd0
  simp [hm, hp, hd, hne]

/-- Witness for C9 at a concrete input: `"from 1 pm to 3 pm this week 2
hours"` resolves to a Monday-through-Sunday range which the duration
overwrite collapses to Monday 1 PM - 3 PM. -/
theorem parse_datetime_duration_overwrite_witness :
    ({ messages := [LMsg.human "from 1 pm to 3 pm this week 2 hours"],
       context := {} } : CState).messages.getLast? =
        some (LMsg.human "from 1 pm to 3 pm this week 2 hours") ∧
    parse duNone "from 1 pm to 3 pm this week 2 hours" dtMon =
      some ⟨⟨0, 46800000000, true⟩, ⟨6, 54000000000, true⟩, true, false, none⟩ ∧
    extract_duration "from 1 pm to 3 pm this week 2 hours" = some 120 ∧
    (parseDatetimeStage duNone dtMon
        { messages := [LMsg.human "from 1 pm to 3 pm this week 2 hours"],
          context := {} }).extracted_datetime =
      some ⟨⟨0, 46800000000, true⟩, addMinutes ⟨0, 46800000000, true⟩ 120, true, false, some 120⟩ :=
  ⟨by decide, by decide, by decide,
    (parse_datetime_duration_overwrite duNone dtMon
      { messages := [LMsg.human "from 1 pm to 3 pm this week 2 hours"], context := {} }
      (LMsg.human "from 1 pm to 3 pm this week 2 hours")
      ⟨⟨0, 46800000000, true⟩, ⟨6, 54000000000, true⟩, true, false, none⟩ 120
      (by decide) (by decide) (by decide) (by decide)).1⟩

/-- C10 amended — `available_slots` is still `None` when the post-ParseTime
decision runs (so the propose-booking branch that requires truthy
`available_slots` is unreachable), and for intent `book_appointment` with a
spec present the decision is `check_availability` PROVIDED the session
context carries no unresolved error; an error persisted from a previous turn
instead routes the decision to `generate_response` (see the counterexample). -/
theorem decide_after_parse_stages (o : Oracles) (sid tz : String)
    (history : List HMsg) (ctx : Ctx) (s2 : CState)
    (hs2 : s2 = parseDatetimeStage o.du o.clock
      (parseIntentStage o (initState history ctx tz sid))) :
    s2.available_slots = none ∧
    (ctx.error = none → s2.intent = some "book_appointment" →
      s2.extracted_datetime.isSome = true →
      decideNext s2 = "check_availability") := by
  subst hs2
  have hslots : (parseDatetimeStage o.du o.clock
      (parseIntentStage o (initState history ctx tz sid))).available_slots = none := by
    rw [parseDatetimeStage_slots, parseIntentStage_slots]
    rfl
  refine ⟨hslots, ?_⟩
  intro herr hint hed
  have herr2 : (parseDatetimeStage o.du o.clock
      (parseIntentStage o (initState history ctx tz sid))).context.error = none := by
    rw [parseDatetimeStage_error, parseIntentStage_context]
    exact herr
  unfold decideNext
  rw [herr2, hint, hslots]
  simp [hed, slotsTruthy]

/-- C10 counterexample — when the restored session context carries an error
from a previous turn, the decision for `book_appointment` with a spec present
is `generate_response`, not `check_availability`: control does not always
proceed to the availability check. -/
theorem decide_error_context_counterexample :
    (parseDatetimeStage oracleBook.du oracleBook.clock
        (parseIntentStage oracleBook
          (initState [⟨"user", "book a meeting tomorrow at 2 pm"⟩] ctxErr "UTC" "s"))).intent =
      some "book_appointment" ∧
    (parseDatetimeStage oracleBook.du oracleBook.clock
        (parseIntentStage oracleBook
          (initState [⟨"user", "book a meeting tomorrow at 2 pm"⟩] ctxErr "UTC" "s"))).extracted_datetime.isSome =
      true ∧
    decideNext
        (parseDatetimeStage oracleBook.du oracleBook.clock
          (parseIntentStage oracleBook
            (initState [⟨"user", "book a meeting tomorrow at 2 pm"⟩] ctxErr "UTC" "s"))) =
      "generate_response" := by
  refine ⟨by decide, by decide, by decide⟩

/-- Witness for C10 at a concrete error-free turn. -/
theorem decide_after_parse_stages_witness :
    (({} : Ctx).error = none) ∧
    (parseDatetimeStage oracleBook.du oracleBook.clock
        (parseIntentStage oracleBook
          (initState [⟨"user", "book a meeting tomorrow at 2 pm"⟩] {} "UTC" "s"))).available_slots =
      none ∧
    decideNext
        (parseDatetimeStage oracleBook.du oracleBook.clock
          (parseIntentStage oracleBook
            (initState [⟨"user", "book a meeting tomorrow at 2 pm"⟩] {} "UTC" "s"))) =
      "check_availability" :=
  ⟨rfl,
    (decide_after_parse_stages oracleBook "s" "UTC"
      [⟨"user", "book a meeting tomorrow at 2 pm"⟩] {} _ rfl).1,
    (decide_after_parse_stages oracleBook "s" "UTC"
      [⟨"user", "book a meeting tomorrow at 2 pm"⟩] {} _ rfl).2 rfl (by decide) (by decide)⟩

end IntelliSchedule
